import Mathlib

/-!
# Verification of `pdf_to_csv_converter.py`

Shallow embedding of the core of the MBH Netbank statement converter:
the label/value splitter (`split_label_value`), the statement parser
(`parse_statement_text`), the transaction classifier
(`_classify_transaction`, here `classify_transaction`) and the row
composition performed by `convert_pdf_to_csv` (modelled as `convert_rows`;
the PDF text extraction and CSV file writing are external I/O and are out
of scope, as the spec states).

Strings are modelled as `List Char`.  Python `float` parsing and `%.2f`
formatting are modelled over exact rationals (`pyFloat?`, `formatF2`) with
round-half-even; this coincides with the binary-double behaviour of CPython
for the amounts in scope (at most two fraction digits, magnitude well below
2^53 / 100).  Decimal digits are modelled as the ASCII digits, and
`str.lower` is modelled for ASCII plus the Hungarian accented letters that
occur in the keyword tables.
-/

/-- Characters matched by Python's Unicode-aware `\s` (and stripped by
`str.strip()`), given by code point. -/
def pySpaceCodes : List Nat :=
  [0x09, 0x0a, 0x0b, 0x0c, 0x0d, 0x1c, 0x1d, 0x1e, 0x1f, 0x20, 0x85, 0xa0,
   0x1680, 0x2000, 0x2001, 0x2002, 0x2003, 0x2004, 0x2005, 0x2006, 0x2007,
   0x2008, 0x2009, 0x200a, 0x2028, 0x2029, 0x202f, 0x205f, 0x3000]

def isPySpace (c : Char) : Bool := pySpaceCodes.contains c.toNat

/-- Characters on which Python's `str.splitlines()` breaks lines. -/
def lineBreakCodes : List Nat :=
  [0x0a, 0x0b, 0x0c, 0x0d, 0x1c, 0x1d, 0x1e, 0x85, 0x2028, 0x2029]

def isLineBreak (c : Char) : Bool := lineBreakCodes.contains c.toNat

/-- Abbreviation turning a string literal into the `List Char` model. -/
def str (s : String) : List Char := s.data

/-- Python `str.strip()`: drop leading and trailing whitespace. -/
def pyStrip (cs : List Char) : List Char :=
  (((cs.dropWhile isPySpace).reverse).dropWhile isPySpace).reverse

/-- Python `str.splitlines()` (source line 116: `text.splitlines()`).
`\r\n` counts as a single line break; a trailing break produces no extra
empty line. -/
def pySplitlines : List Char → List (List Char)
  | [] => []
  | [c] => if isLineBreak c then [[]] else [[c]]
  | c :: c2 :: rest =>
    if isLineBreak c then
      [] :: (if c = '\r' ∧ c2 = '\n' then pySplitlines rest
             else pySplitlines (c2 :: rest))
    else
      match pySplitlines (c2 :: rest) with
      | [] => [[c]]
      | l :: ls => (c :: l) :: ls

/-- `re.split(r"\s{2,}", ·)` (source line 97): split at each maximal run of
two or more whitespace characters.  `part` is the segment currently being
built (reversed), `pend` the run of pending whitespace just read
(reversed); a pending run of length at most one belongs to the current
segment, a longer one separates segments. -/
def splitAux : List Char → List Char → List Char → List (List Char)
  | [], part, pend =>
    if 2 ≤ pend.length then [part.reverse, []]
    else [(pend ++ part).reverse]
  | c :: rest, part, pend =>
    if isPySpace c then splitAux rest part (c :: pend)
    else if 2 ≤ pend.length then part.reverse :: splitAux rest [c] []
    else splitAux rest (c :: (pend ++ part)) []

def splitWS2 (cs : List Char) : List (List Char) := splitAux cs [] []

/-- Python `" ".join(·)`. -/
def joinSp (ps : List (List Char)) : List Char := List.intercalate [' '] ps

/-- Source lines 85-104: split a labelled line into `(label, value)` on runs
of two or more whitespace characters.  The line is stripped first; the
first segment is the label, the remaining segments are rejoined with single
spaces and stripped. -/
def split_label_value (line : List Char) : List Char × List Char :=
  let parts := splitWS2 (pyStrip line)
  if 2 ≤ parts.length then
    (parts.headI, pyStrip (joinSp parts.tail))
  else (pyStrip line, [])

/-- Python `str.replace("HUF", "")`: remove the occurrences of `HUF`,
scanning left to right (source line 149). -/
def removeHUF : List Char → List Char
  | 'H' :: 'U' :: 'F' :: rest => removeHUF rest
  | c :: rest => c :: removeHUF rest
  | [] => []

/-- Python `str.replace("Ft", "")` (source line 149). -/
def removeFt : List Char → List Char
  | 'F' :: 't' :: rest => removeFt rest
  | c :: rest => c :: removeFt rest
  | [] => []

/-- Amount text normalization, source lines 149-154: strip `HUF` and `Ft`,
delete every whitespace character (`re.sub(r"[\s ]+", "", ·)`), delete
`.` (thousands separator), then turn `,` into `.` (decimal separator). -/
def amtNorm (value : List Char) : List Char :=
  let a := removeFt (removeHUF value)
  let b := a.filter (fun c => !isPySpace c)
  (b.filter (fun c => !(c = '.'))).map (fun c => if c = ',' then '.' else c)

/-- The value of a Python float relevant to this program: a finite value is
kept as a sign bit plus a non-negative exact magnitude `num / 10 ^ scale`
(so that `-0.0` is representable), infinities keep their sign, plus `nan`.
The decimal-literal grammar only ever produces such magnitudes. -/
inductive PyVal where
  | finite (neg : Bool) (num : ℕ) (scale : ℕ)
  | inf (neg : Bool)
  | nan
deriving DecidableEq

def isAsciiDigit (c : Char) : Bool := '0' ≤ c && c ≤ '9'

/-- Optional leading sign of a numeric literal. -/
def parseSign : List Char → Bool × List Char
  | '+' :: r => (false, r)
  | '-' :: r => (true, r)
  | r => (false, r)

/-- ASCII/Hungarian model of Python `str.lower()` on one character. -/
def lowerChar (c : Char) : Char :=
  if 'A' ≤ c ∧ c ≤ 'Z' then Char.ofNat (c.toNat + 32)
  else if c = 'Á' then 'á'
  else if c = 'É' then 'é'
  else if c = 'Í' then 'í'
  else if c = 'Ó' then 'ó'
  else if c = 'Ö' then 'ö'
  else if c = 'Ő' then 'ő'
  else if c = 'Ú' then 'ú'
  else if c = 'Ü' then 'ü'
  else if c = 'Ű' then 'ű'
  else c

def pyLower (cs : List Char) : List Char := cs.map lowerChar

/-- Numeric value of a list of ASCII digits. -/
def digitsVal (ds : List Char) : ℕ :=
  ds.foldl (fun n c => 10 * n + (c.toNat - '0'.toNat)) 0

/-- Mantissa of integer digits `ip` and fraction digits `fp`, as the exact
pair `(num, scale)` denoting `num / 10 ^ scale`. -/
def mantissa (ip fp : List Char) : ℕ × ℕ :=
  (digitsVal ip * 10 ^ fp.length + digitsVal fp, fp.length)

/-- Scale the magnitude by `10 ^ e` (the `e±e` exponent part). -/
def applyExp (m : ℕ × ℕ) (eneg : Bool) (e : ℕ) : ℕ × ℕ :=
  if eneg then (m.1, m.2 + e) else (m.1 * 10 ^ e, m.2)

/-- Grammar of Python `float(string)` after whitespace stripping and
underscore removal: optional sign, then either `inf`/`infinity`/`nan`
(case-insensitive) or a decimal mantissa with at least one digit and an
optional exponent. -/
def parseFloatCore (cs : List Char) : Option PyVal :=
  let sr := parseSign cs
  let r0 := sr.2
  if pyLower r0 = str "inf" ∨ pyLower r0 = str "infinity" then some (.inf sr.1)
  else if pyLower r0 = str "nan" then some .nan
  else
    let ip := r0.takeWhile isAsciiDigit
    let r1 := r0.dropWhile isAsciiDigit
    let fpr : List Char × List Char :=
      match r1 with
      | '.' :: rest => (rest.takeWhile isAsciiDigit, rest.dropWhile isAsciiDigit)
      | _ => ([], r1)
    let fp := fpr.1
    let r2 := fpr.2
    if ip = [] ∧ fp = [] then none
    else
      match r2 with
      | [] => some (.finite sr.1 (mantissa ip fp).1 (mantissa ip fp).2)
      | e :: rest =>
        if e = 'e' ∨ e = 'E' then
          let er := parseSign rest
          let ed := er.2.takeWhile isAsciiDigit
          let r4 := er.2.dropWhile isAsciiDigit
          if ed = [] ∨ r4 ≠ [] then none
          else
            some (.finite sr.1 (applyExp (mantissa ip fp) er.1 (digitsVal ed)).1
              (applyExp (mantissa ip fp) er.1 (digitsVal ed)).2)
        else none

/-- PEP 515 underscore validity: every `_` must sit between two digits. -/
def underscoresOkAux : Option Char → List Char → Bool
  | _, [] => true
  | prev, c :: rest =>
    if c = '_' then
      (match prev with | some p => isAsciiDigit p | none => false) &&
      (match rest with | r :: _ => isAsciiDigit r | [] => false) &&
      underscoresOkAux (some c) rest
    else underscoresOkAux (some c) rest

def underscoresOk (cs : List Char) : Bool := underscoresOkAux none cs

/-- Python `float(string)`: strip whitespace, validate and remove
underscores, then parse.  `none` models a raised `ValueError`. -/
def pyFloat? (s : List Char) : Option PyVal :=
  let t := pyStrip s
  if underscoresOk t then parseFloatCore (t.filter (fun c => !(c = '_')))
  else none

/-- Round `a / b` (with `b > 0`) to the nearest natural number, ties to
even (the rounding of CPython's fixed-point float formatting). -/
def roundHEdiv (a b : ℕ) : ℕ :=
  let q := a / b
  let r := a % b
  if 2 * r < b then q
  else if b < 2 * r then q + 1
  else if q % 2 = 0 then q else q + 1

def natToChars (n : ℕ) : List Char := Nat.toDigits 10 n

def twoDigits (m : ℕ) : List Char :=
  if m < 10 then '0' :: natToChars m else natToChars m

/-- Python `f"{v:.2f}"` (source line 159): fixed-point rendering with two
fraction digits, sign preserved (also on `-0.00`). -/
def formatF2 : PyVal → List Char
  | .nan => str "nan"
  | .inf neg => (if neg then str "-" else []) ++ str "inf"
  | .finite neg num scale =>
    let n := roundHEdiv (num * 100) (10 ^ scale)
    (if neg then str "-" else []) ++ natToChars (n / 100) ++ str "." ++ twoDigits (n % 100)

/-- Stored `amount` field for an amount line (source lines 149-161): the
normalized text re-rendered with two fraction digits when it parses as a
float, otherwise the original split value. -/
def amountField (value : List Char) : List Char :=
  match pyFloat? (amtNorm value) with
  | some v => formatF2 v
  | none => value

/-- Stored `date` field (source lines 167-169): strip, drop the trailing
run of `.` (`str.rstrip(".")`), then replace every `.` with `-`. -/
def dateField (value : List Char) : List Char :=
  let v := pyStrip value
  let v2 := (v.reverse.dropWhile (fun c => c = '.')).reverse
  v2.map (fun c => if c = '.' then '-' else c)

/-- A transaction record, the dictionary built at source lines 131-138. -/
structure Txn where
  name : List Char
  date : List Char
  amount : List Char
  reference : List Char
  note : List Char
  id : List Char
deriving DecidableEq

/-- Python `needle in haystack` on strings: substring containment. -/
def containsSub (pat cs : List Char) : Bool :=
  cs.tails.any fun t => pat.isPrefixOf t

/-- One step of the parser loop, source lines 119-185, acting on the state
`(current, transactions)`. -/
def procLine (st : Option Txn × List Txn) (raw : List Char) : Option Txn × List Txn :=
  let line := pyStrip raw
  if line = [] then st
  else if (str "Címzett neve").isPrefixOf line ∨ (str "Megbízó neve").isPrefixOf line then
    (some { name := (split_label_value raw).2, date := [], amount := [],
            reference := [], note := [], id := [] },
     match st.1 with | some c => st.2 ++ [c] | none => st.2)
  else
    match st.1 with
    | none => st
    | some cur =>
      if containsSub (str "Jóváírás összege") line ∨ containsSub (str "Terhelés összege") line then
        (some { cur with amount := amountField (split_label_value raw).2 }, st.2)
      else if (str "Értéknap").isPrefixOf line then
        (some { cur with date := dateField (split_label_value raw).2 }, st.2)
      else if (str "Közlemény").isPrefixOf line then
        (some { cur with reference := (split_label_value raw).2 }, st.2)
      else if (str "Megjegyzés").isPrefixOf line then
        (some { cur with note := (split_label_value raw).2 }, st.2)
      else if (str "Partnerek közti egyedi azonosító").isPrefixOf line then
        (some { cur with id := (split_label_value raw).2 }, st.2)
      else st

/-- Append the still-open record, if any (source lines 127-128, 187-188). -/
def finalizeState (st : Option Txn × List Txn) : List Txn :=
  match st.1 with | some c => st.2 ++ [c] | none => st.2

/-- Source lines 107-189: scan the text line by line and collect the
transaction records in order of appearance. -/
def parse_statement_text (text : List Char) : List Txn :=
  finalizeState ((pySplitlines text).foldl procLine (none, []))

/-- Keyword test of source line 223: `re.search(r"refund|visszatérítés|visszautalás", desc)`. -/
def matchRefund (desc : List Char) : Bool :=
  containsSub (str "refund") desc || containsSub (str "visszatérítés") desc ||
    containsSub (str "visszautalás") desc

/-- Source line 226: `re.search(r"átvezetés|transfer", desc)`. -/
def matchTransfer (desc : List Char) : Bool :=
  containsSub (str "átvezetés") desc || containsSub (str "transfer") desc

/-- Source line 229: `re.search(r"osztalék|dividend", desc)`. -/
def matchDividend (desc : List Char) : Bool :=
  containsSub (str "osztalék") desc || containsSub (str "dividend") desc

/-- Gap class `[\s_-]` inside the capital-gain pattern. -/
def isGapChar (c : Char) : Bool := isPySpace c || c = '_' || c = '-'

/-- Match of `tőke[\s_-]*nyereség` anywhere in `desc`; since `n` is not in
the gap class, the greedy run is the only candidate. -/
def tokeNyereseg (desc : List Char) : Bool :=
  desc.tails.any fun t =>
    (str "tőke").isPrefixOf t &&
      (str "nyereség").isPrefixOf ((t.drop (str "tőke").length).dropWhile isGapChar)

/-- Source line 232: `re.search(r"tőke[\s_-]*nyereség|capital gain|nyereség", desc)`. -/
def matchCapGain (desc : List Char) : Bool :=
  tokeNyereseg desc || containsSub (str "capital gain") desc ||
    containsSub (str "nyereség") desc

/-- Source line 234: `re.search(r"veszteség|loss", desc)`. -/
def matchCapLoss (desc : List Char) : Bool :=
  containsSub (str "veszteség") desc || containsSub (str "loss") desc

/-- Word characters for the regex `\b` boundary, modelled for ASCII plus
the Hungarian accented letters. -/
def isWordChar (c : Char) : Bool :=
  c.isAlphanum || c = '_' || (str "áéíóöőúüűÁÉÍÓÖŐÚÜŰ").contains c

def boundaryOk : Option Char → Bool
  | none => true
  | some p => !isWordChar p

def afterBoundaryOk (w t : List Char) : Bool :=
  match t.drop w.length with
  | [] => true
  | d :: _ => !isWordChar d

/-- `\b w \b` matching at some position of the text, tracking the previous
character for the left boundary (the keywords all start and end with word
characters, so `\b` means the neighbour is absent or a non-word char). -/
def wordMatchAux (w : List Char) (prev : Option Char) : List Char → Bool
  | [] => false
  | c :: rest =>
    (boundaryOk prev && w.isPrefixOf (c :: rest) && afterBoundaryOk w (c :: rest)) ||
      wordMatchAux w (some c) rest

def wordMatch (w cs : List Char) : Bool := wordMatchAux w none cs

/-- Source line 237: `re.search(r"\b(buy|purchase|vétel)\b", desc)`. -/
def matchBuy (desc : List Char) : Bool :=
  wordMatch (str "buy") desc || wordMatch (str "purchase") desc ||
    wordMatch (str "vétel") desc

/-- Source line 239: `re.search(r"\b(sell|eladás)\b", desc)`. -/
def matchSell (desc : List Char) : Bool :=
  wordMatch (str "sell") desc || wordMatch (str "eladás") desc

/-- Source line 242: `re.search(r"/ref/salary|salary|munkabér", desc)`. -/
def matchSalary (desc : List Char) : Bool :=
  containsSub (str "/ref/salary") desc || containsSub (str "salary") desc ||
    containsSub (str "munkabér") desc

/-- Source line 248: the POS/card/fee/loan/insurance/pension keywords. -/
def matchExpenseKw (desc : List Char) : Bool :=
  containsSub (str "pos") desc || containsSub (str "kereskedői") desc ||
    containsSub (str "bankkártya") desc || containsSub (str "kártya") desc ||
    containsSub (str "díja") desc || containsSub (str "levonás") desc ||
    containsSub (str "szocho") desc || containsSub (str "hitel") desc ||
    containsSub (str "törlesztés") desc || containsSub (str "biztosítás") desc ||
    containsSub (str "nyugd") desc

/-- `amount > 0` on a Python float value. -/
def pyPos : PyVal → Bool
  | .finite neg num _ => !neg && !(num = 0)
  | .inf neg => !neg
  | .nan => false

/-- `amount < 0` on a Python float value. -/
def pyNeg : PyVal → Bool
  | .finite neg num _ => neg && !(num = 0)
  | .inf neg => neg
  | .nan => false

/-- The ordered first-match rule list of `_classify_transaction` (source
lines 223-256), applied to the lowered description `desc` and the parsed
amount. -/
def classifyCore (desc : List Char) (amount : PyVal) : List Char :=
  if matchRefund desc then str "Refund"
  else if matchTransfer desc then str "Transfer"
  else if matchDividend desc then str "Investment - Dividend"
  else if matchCapGain desc then str "Investment - Capital Gain"
  else if matchCapLoss desc then str "Investment - Capital Loss"
  else if matchBuy desc then str "Investment - Buy"
  else if matchSell desc then str "Investment - Sell"
  else if matchSalary desc then str "Income"
  else if containsSub (str "kamat") desc then
    (if pyPos amount then str "Income" else str "Expense")
  else if matchExpenseKw desc then str "Expense"
  else if pyPos amount then str "Income"
  else if pyNeg amount then str "Expense"
  else str "Transfer"

/-- Source lines 192-256 (`_classify_transaction`): lower-case the
description, parse the amount (defaulting to `0.0` on failure, source
lines 217-221), then apply the first-match rule list. -/
def classify_transaction (description amount_str : List Char) : List Char :=
  classifyCore (pyLower description)
    (match pyFloat? amount_str with
     | some v => v
     | none => .finite false 0 0)

/-- One CSV output row (header `date,amount,type,description`). -/
structure Row where
  date : List Char
  amount : List Char
  rowType : List Char
  description : List Char
deriving DecidableEq

/-- Row composition of source lines 279-301: `base_desc` is the reference
when non-empty (Python `or`), else the note, stripped; the description
joins the stripped name and `base_desc` with `" - "` when both are
non-empty. -/
def output_row (rec : Txn) : Row :=
  let base_desc := pyStrip (if rec.reference = [] then rec.note else rec.reference)
  let name_part := pyStrip rec.name
  let description :=
    if name_part ≠ [] ∧ base_desc ≠ [] then name_part ++ str " - " ++ base_desc
    else if name_part ≠ [] then name_part
    else base_desc
  { date := rec.date, amount := rec.amount,
    rowType := classify_transaction base_desc rec.amount,
    description := description }

/-- The record-to-row pipeline of `convert_pdf_to_csv` (source lines
259-301), with the PDF extraction and CSV writing I/O stripped away. -/
def convert_rows (text : List Char) : List Row :=
  (parse_statement_text text).map output_row

/-- A line whose trimmed content starts with one of the two
counterparty-name labels (the trigger test of source line 125). -/
def isTriggerLine (raw : List Char) : Bool :=
  (str "Címzett neve").isPrefixOf (pyStrip raw) ||
    (str "Megbízó neve").isPrefixOf (pyStrip raw)

/-- A line whose trimmed content contains one of the two amount labels
(the substring test of source line 145). -/
def isAmountLine (raw : List Char) : Bool :=
  containsSub (str "Jóváírás összege") (pyStrip raw) ||
    containsSub (str "Terhelés összege") (pyStrip raw)

/-- Date normalization exactly as claim C5 words it: trim, drop exactly one
trailing `.` if present, then replace every remaining `.` with `-`. -/
def claimDateNorm (value : List Char) : List Char :=
  let v := pyStrip value
  let v2 := if v.getLast? = some '.' then v.dropLast else v
  v2.map (fun c => if c = '.' then '-' else c)

/-- Date normalization as amended: trim, drop the whole trailing run of
`.` characters, then replace every remaining `.` with `-`. -/
def amendedDateNorm (value : List Char) : List Char :=
  let v := pyStrip value
  let v2 := (v.reverse.dropWhile (fun c => c = '.')).reverse
  v2.map (fun c => if c = '.' then '-' else c)

/-- Claim C6's description of the splitter, part 1: the text before the
first run of two or more consecutive whitespace characters (the whole text
when no such run exists). -/
def beforeRun : List Char → List Char
  | [] => []
  | [c] => [c]
  | c :: c2 :: rest =>
    if isPySpace c ∧ isPySpace c2 then [] else c :: beforeRun (c2 :: rest)

/-- Claim C6's description of the splitter, part 2: what follows the first
run of two or more consecutive whitespace characters, `none` when no such
run exists. -/
def afterRun : List Char → Option (List Char)
  | [] => none
  | [_] => none
  | c :: c2 :: rest =>
    if isPySpace c ∧ isPySpace c2 then some ((c2 :: rest).dropWhile isPySpace)
    else afterRun (c2 :: rest)

/-- The segments of a text as claim C6 describes them: the pieces
delimited by runs of two or more whitespace characters.  Each removed run
is non-empty, so the length of the text bounds the recursion depth; the
fuel value is shown adequate in `segsFrom_eq` below. -/
def segsFromAux : ℕ → List Char → List (List Char)
  | 0, cs => [cs]
  | Nat.succ fuel, cs =>
    match afterRun cs with
    | none => [cs]
    | some r => beforeRun cs :: segsFromAux fuel r

def segsFrom (cs : List Char) : List (List Char) := segsFromAux cs.length cs

/-- The label/value splitter exactly as claim C6 words it, locating the
whitespace runs in the line it is given: label = trimmed text before the
first run, value = remaining segments rejoined with single spaces and
trimmed; a line with no run gives the whole trimmed line and an empty
value. -/
def claimSplit (line : List Char) : List Char × List Char :=
  match afterRun line with
  | some r => (pyStrip (beforeRun line), pyStrip (joinSp (segsFrom r)))
  | none => (pyStrip line, [])

/-- The nine category labels of the classifier's contract. -/
def nineLabels : List (List Char) :=
  [str "Expense", str "Income", str "Refund", str "Transfer",
   str "Investment - Buy", str "Investment - Sell", str "Investment - Dividend",
   str "Investment - Capital Gain", str "Investment - Capital Loss"]

/-- One labelled line of claim C1's input block: label, a run of `k`
spaces, value. -/
def c1Line (label : String) (k : ℕ) (value : String) : List Char :=
  str label ++ List.replicate k ' ' ++ str value

/-- Claim C1's input text: the four labelled lines of the block, separated
by newlines, with space runs of widths `k1 … k4`. -/
def c1Text (k1 k2 k3 k4 : ℕ) : List Char :=
  c1Line "Címzett neve" k1 "ACME Ltd" ++
    '\n' :: (c1Line "Értéknap" k2 "2024.03.01." ++
      '\n' :: (c1Line "Jóváírás összege" k3 "10 000 HUF" ++
        '\n' :: c1Line "Közlemény" k4 "Invoice 42"))

/-! ## Lemmas and claim theorems -/

set_option maxRecDepth 8000

set_option maxRecDepth 8000

theorem procLine_blank (st : Option Txn × List Txn) (raw : List Char)
    (h : pyStrip raw = []) : procLine st raw = st := by
  simp [procLine, h]

theorem isTriggerLine_false_of_blank (raw : List Char) (h : pyStrip raw = []) :
    isTriggerLine raw = false := by
  simp [isTriggerLine, h]
  decide

theorem isAmountLine_false_of_blank (raw : List Char) (h : pyStrip raw = []) :
    isAmountLine raw = false := by
  simp [isAmountLine, h]
  decide

theorem procLine_trigger (st : Option Txn × List Txn) (raw : List Char)
    (h : isTriggerLine raw = true) :
    procLine st raw =
      (some { name := (split_label_value raw).2, date := [], amount := [],
              reference := [], note := [], id := [] }, finalizeState st) := by
  have hne : pyStrip raw ≠ [] := by
    intro hnil
    rw [isTriggerLine_false_of_blank raw hnil] at h
    exact Bool.false_ne_true h
  rw [isTriggerLine] at h
  rcases Bool.or_eq_true_iff.mp h with h1 | h1 <;>
    simp [procLine, hne, h1, finalizeState]

theorem procLine_amount (cur : Txn) (txs : List Txn) (raw : List Char)
    (h0 : isTriggerLine raw = false) (h1 : isAmountLine raw = true) :
    procLine (some cur, txs) raw =
      (some { cur with amount := amountField (split_label_value raw).2 }, txs) := by
  have hne : pyStrip raw ≠ [] := by
    intro hnil
    rw [isAmountLine_false_of_blank raw hnil] at h1
    exact Bool.false_ne_true h1
  rw [isTriggerLine, Bool.or_eq_false_iff] at h0
  rw [isAmountLine] at h1
  rcases Bool.or_eq_true_iff.mp h1 with h2 | h2 <;>
    simp [procLine, hne, h0.1, h0.2, h2]

theorem procLine_keeps (st : Option Txn × List Txn) (raw : List Char)
    (h0 : isTriggerLine raw = false) :
    (procLine st raw).2 = st.2 ∧
      Option.map Txn.name (procLine st raw).1 = Option.map Txn.name st.1 := by
  rw [isTriggerLine, Bool.or_eq_false_iff] at h0
  by_cases hb : pyStrip raw = []
  · simp [procLine, hb]
  · obtain ⟨c, cs⟩ : Option Txn × List Txn := st
    cases c with
    | none => simp [procLine, hb, h0.1, h0.2]
    | some cur => simp [procLine, hb, h0.1, h0.2]; split_ifs <;> simp

set_option maxRecDepth 8000

theorem classifyCore_mem (desc : List Char) (amt : PyVal) :
    classifyCore desc amt ∈ nineLabels := by
  rw [classifyCore]
  by_cases h1 : matchRefund desc = true
  · rw [if_pos h1]; decide
  rw [if_neg h1]
  by_cases h2 : matchTransfer desc = true
  · rw [if_pos h2]; decide
  rw [if_neg h2]
  by_cases h3 : matchDividend desc = true
  · rw [if_pos h3]; decide
  rw [if_neg h3]
  by_cases h4 : matchCapGain desc = true
  · rw [if_pos h4]; decide
  rw [if_neg h4]
  by_cases h5 : matchCapLoss desc = true
  · rw [if_pos h5]; decide
  rw [if_neg h5]
  by_cases h6 : matchBuy desc = true
  · rw [if_pos h6]; decide
  rw [if_neg h6]
  by_cases h7 : matchSell desc = true
  · rw [if_pos h7]; decide
  rw [if_neg h7]
  by_cases h8 : matchSalary desc = true
  · rw [if_pos h8]; decide
  rw [if_neg h8]
  by_cases h9 : containsSub (str "kamat") desc = true
  · rw [if_pos h9]
    by_cases hp : pyPos amt = true
    · rw [if_pos hp]; decide
    · rw [if_neg hp]; decide
  rw [if_neg h9]
  by_cases h10 : matchExpenseKw desc = true
  · rw [if_pos h10]; decide
  rw [if_neg h10]
  by_cases h11 : pyPos amt = true
  · rw [if_pos h11]; decide
  rw [if_neg h11]
  by_cases h12 : pyNeg amt = true
  · rw [if_pos h12]; decide
  rw [if_neg h12]
  decide

/-- C7: the classifier is deterministic and total — every call returns one
of the nine labels — and a description matching a refund keyword returns
`Refund` regardless of the amount. -/
theorem C7_classifier_total_refund_priority :
    ∀ d a, classify_transaction d a ∈ nineLabels ∧
      (matchRefund (pyLower d) = true → classify_transaction d a = str "Refund") := by
  intro d a
  constructor
  · rw [classify_transaction]
    exact classifyCore_mem _ _
  · intro h
    rw [classify_transaction, classifyCore, if_pos h]

/-- C7 witness: at a concrete refund-keyword description with a negative
amount the classifier returns `Refund`. -/
theorem C7_witness :
    matchRefund (pyLower (str "Visszatérítés")) = true ∧
      classify_transaction (str "Visszatérítés") (str "-500.00") = str "Refund" :=
  ⟨by decide,
   (C7_classifier_total_refund_priority (str "Visszatérítés") (str "-500.00")).2 (by decide)⟩

/-- C8: a description containing `osztalék` (any letter case) that matches
no refund or transfer keyword classifies as `Investment - Dividend`, for
every amount — the first satisfied rule wins, the sign fallback is never
consulted. -/
theorem C8_dividend_priority (d a : List Char)
    (h1 : containsSub (str "osztalék") (pyLower d) = true)
    (h2 : matchRefund (pyLower d) = false)
    (h3 : matchTransfer (pyLower d) = false) :
    classify_transaction d a = str "Investment - Dividend" := by
  have hd : matchDividend (pyLower d) = true := by
    rw [matchDividend, h1, Bool.true_or]
  rw [classify_transaction, classifyCore,
    if_neg (by rw [h2]; exact Bool.false_ne_true),
    if_neg (by rw [h3]; exact Bool.false_ne_true), if_pos hd]

/-- C8 witness: a concrete dividend description with a positive amount. -/
theorem C8_witness :
    containsSub (str "osztalék") (pyLower (str "OSZTALÉK kifizetés")) = true ∧
      matchRefund (pyLower (str "OSZTALÉK kifizetés")) = false ∧
      matchTransfer (pyLower (str "OSZTALÉK kifizetés")) = false ∧
      classify_transaction (str "OSZTALÉK kifizetés") (str "500.00")
        = str "Investment - Dividend" :=
  ⟨by decide, by decide, by decide,
   C8_dividend_priority (str "OSZTALÉK kifizetés") (str "500.00")
     (by decide) (by decide) (by decide)⟩

/-- C3: amount-value normalization maps the value text `"1 234,56 HUF"` to
the stored amount string `"1234.56"` and `"-12.345,00 Ft"` to
`"-12345.00"`. -/
theorem C3_amount_normalization :
    amountField (str "1 234,56 HUF") = str "1234.56" ∧
      amountField (str "-12.345,00 Ft") = str "-12345.00" :=
  ⟨by decide, by decide⟩

/-- C10: when the reference field is non-empty, the emitted row does not
depend on the note field. -/
theorem C10_note_independence (r : Txn) (n1 n2 : List Char)
    (h : r.reference ≠ []) :
    output_row { r with note := n1 } = output_row { r with note := n2 } := by
  simp [output_row, h]

/-- C10 witness: two concrete records differing only in the note yield the
same row. -/
theorem C10_witness :
    (Txn.mk (str "ACME") (str "2024-01-01") (str "10.00") (str "ref") (str "n1") []).reference ≠ [] ∧
      output_row (Txn.mk (str "ACME") (str "2024-01-01") (str "10.00") (str "ref") (str "n1") [])
        = output_row (Txn.mk (str "ACME") (str "2024-01-01") (str "10.00") (str "ref") (str "n2") []) :=
  ⟨by decide,
   C10_note_independence
     (Txn.mk (str "ACME") (str "2024-01-01") (str "10.00") (str "ref") (str "n1") [])
     (str "n1") (str "n2") (by decide)⟩

/-- C4 counterexample: on the amount value `"1,2,3 HUF"` the normalized
text `"1.2.3"` fails to parse as a number, and the parser stores the
original split value `"1,2,3 HUF"` — not the normalized string the claim
demands. -/
theorem C4_counterexample :
    (parse_statement_text (str "Címzett neve  X\nJóváírás összege  1,2,3 HUF")).map Txn.amount
        = [str "1,2,3 HUF"] ∧
      amtNorm (str "1,2,3 HUF") = str "1.2.3" ∧
      pyFloat? (str "1.2.3") = none ∧
      ¬ (str "1,2,3 HUF" = str "1.2.3") :=
  ⟨by decide, by decide, by decide, by decide⟩

/-- C4 as amended: when the normalized value text of an amount line fails
to parse as a number, the parser stores the original split value (before
normalization) in the open record's amount field, and the parsing step
remains a total function. -/
theorem C4_amended (cur : Txn) (txs : List Txn) (raw : List Char)
    (h0 : isTriggerLine raw = false) (h1 : isAmountLine raw = true)
    (h2 : pyFloat? (amtNorm (split_label_value raw).2) = none) :
    procLine (some cur, txs) raw =
      (some { cur with amount := (split_label_value raw).2 }, txs) := by
  rw [procLine_amount cur txs raw h0 h1, amountField, h2]

/-- C4 witness: the amended behaviour at a concrete unparseable amount. -/
theorem C4_witness :
    isTriggerLine (str "Jóváírás összege  1,2,3 HUF") = false ∧
      isAmountLine (str "Jóváírás összege  1,2,3 HUF") = true ∧
      pyFloat? (amtNorm (split_label_value (str "Jóváírás összege  1,2,3 HUF")).2) = none ∧
      procLine (some (Txn.mk [] [] [] [] [] []), []) (str "Jóváírás összege  1,2,3 HUF")
        = (some (Txn.mk [] [] (str "1,2,3 HUF") [] [] []), []) := by
  refine ⟨by decide, by decide, by decide, ?_⟩
  have h := C4_amended (Txn.mk [] [] [] [] [] []) [] (str "Jóváírás összege  1,2,3 HUF")
    (by decide) (by decide) (by decide)
  rw [h]
  decide

/-- C5 counterexample: for the date value `"2024.03.01.."` the code strips
both trailing dots and stores `"2024-03-01"`, while the claim's
drop-exactly-one-dot normalization yields `"2024-03-01-"`. -/
theorem C5_counterexample :
    (parse_statement_text (str "Címzett neve  X\nÉrtéknap  2024.03.01..")).map Txn.date
        = [str "2024-03-01"] ∧
      claimDateNorm (str "2024.03.01..") = str "2024-03-01-" ∧
      ¬ (str "2024-03-01" = str "2024-03-01-") :=
  ⟨by decide, by decide, by decide⟩

/-- C5 as amended: a value-date line (trimmed line starting with
`Értéknap`, not a trigger line, containing no amount label) stores the
split value trimmed, with the whole trailing run of dots dropped and every
remaining dot replaced by `-`. -/
theorem C5_amended (cur : Txn) (txs : List Txn) (raw : List Char)
    (h0 : isTriggerLine raw = false) (h1 : isAmountLine raw = false)
    (h2 : (str "Értéknap").isPrefixOf (pyStrip raw) = true) :
    procLine (some cur, txs) raw =
      (some { cur with date := amendedDateNorm (split_label_value raw).2 }, txs) := by
  have hne : pyStrip raw ≠ [] := by
    intro hnil
    rw [hnil] at h2
    exact absurd h2 (by decide)
  rw [isTriggerLine, Bool.or_eq_false_iff] at h0
  rw [isAmountLine, Bool.or_eq_false_iff] at h1
  have hdate : dateField (split_label_value raw).2 = amendedDateNorm (split_label_value raw).2 := rfl
  simp [procLine, hne, h0.1, h0.2, h1.1, h1.2, h2, ← hdate]

/-- C5 witness: the amended behaviour at the double-dot date value. -/
theorem C5_witness :
    isTriggerLine (str "Értéknap  2024.03.01..") = false ∧
      isAmountLine (str "Értéknap  2024.03.01..") = false ∧
      (str "Értéknap").isPrefixOf (pyStrip (str "Értéknap  2024.03.01..")) = true ∧
      procLine (some (Txn.mk [] [] [] [] [] []), []) (str "Értéknap  2024.03.01..")
        = (some (Txn.mk [] (str "2024-03-01") [] [] [] []), []) := by
  refine ⟨by decide, by decide, by decide, ?_⟩
  have h := C5_amended (Txn.mk [] [] [] [] [] []) [] (str "Értéknap  2024.03.01..")
    (by decide) (by decide) (by decide)
  rw [h]
  decide

/-- C9: with a record open, an amount line is recognized by substring
containment anywhere in the trimmed line and overwrites the amount field,
while the date, reference, note and partner-id fields can only change when
the trimmed line starts with their label. -/
theorem C9_substring_vs_prefix_recognition :
    (∀ cur txs raw, isTriggerLine raw = false → isAmountLine raw = true →
        procLine (some cur, txs) raw =
          (some { cur with amount := amountField (split_label_value raw).2 }, txs)) ∧
      (∀ cur txs raw r', isTriggerLine raw = false →
        (procLine (some cur, txs) raw).1 = some r' →
          (r'.date ≠ cur.date → (str "Értéknap").isPrefixOf (pyStrip raw) = true) ∧
          (r'.reference ≠ cur.reference → (str "Közlemény").isPrefixOf (pyStrip raw) = true) ∧
          (r'.note ≠ cur.note → (str "Megjegyzés").isPrefixOf (pyStrip raw) = true) ∧
          (r'.id ≠ cur.id →
            (str "Partnerek közti egyedi azonosító").isPrefixOf (pyStrip raw) = true)) := by
  constructor
  · exact procLine_amount
  · intro cur txs raw r' h0 hr
    rw [isTriggerLine, Bool.or_eq_false_iff] at h0
    by_cases hb : pyStrip raw = []
    · rw [procLine_blank _ _ hb] at hr
      cases hr
      simp
    · simp only [procLine, hb, h0.1, h0.2] at hr
      simp at hr
      split_ifs at hr <;> cases hr <;> simp_all

/-- C9 witness: a line mentioning the amount label mid-line still
overwrites the open record's amount field. -/
theorem C9_witness :
    isTriggerLine (str "xx Jóváírás összege  5") = false ∧
      isAmountLine (str "xx Jóváírás összege  5") = true ∧
      procLine (some (Txn.mk [] [] [] [] [] []), []) (str "xx Jóváírás összege  5")
        = (some (Txn.mk [] [] (str "5.00") [] [] []), []) := by
  refine ⟨by decide, by decide, ?_⟩
  have h := C9_substring_vs_prefix_recognition.1 (Txn.mk [] [] [] [] [] [])
    [] (str "xx Jóváírás összege  5") (by decide) (by decide)
  rw [h]
  decide

theorem finalize_map_name (st st' : Option Txn × List Txn)
    (h2 : st'.2 = st.2)
    (h1 : Option.map Txn.name st'.1 = Option.map Txn.name st.1) :
    (finalizeState st').map Txn.name = (finalizeState st).map Txn.name := by
  obtain ⟨c, l⟩ := st
  obtain ⟨c', l'⟩ := st'
  cases c <;> cases c' <;> simp_all [finalizeState]

theorem foldl_procLine_names :
    ∀ (ls : List (List Char)) (st : Option Txn × List Txn),
      (finalizeState (ls.foldl procLine st)).map Txn.name
        = (finalizeState st).map Txn.name
            ++ (ls.filter isTriggerLine).map (fun raw => (split_label_value raw).2) := by
  intro ls
  induction ls with
  | nil => simp
  | cons l ls ih =>
    intro st
    rw [List.foldl_cons, List.filter_cons, ih (procLine st l)]
    by_cases h : isTriggerLine l = true
    · rw [if_pos h, procLine_trigger st l h]
      simp [finalizeState]
    · rw [if_neg h]
      have hk := procLine_keeps st l (Bool.eq_false_iff.mpr h)
      rw [finalize_map_name st (procLine st l) hk.1 hk.2]

/-- C2: a statement with N trigger lines (lines whose trimmed content
starts with a counterparty-name label) parses to exactly N records, in
trigger order, each named by the trigger's split value; every trigger line
flushes the open record and opens a fresh one with the other fields empty,
and the final open record is appended at end of input. -/
theorem C2_records_per_trigger :
    (∀ text, (parse_statement_text text).map Txn.name
        = ((pySplitlines text).filter isTriggerLine).map
            (fun raw => (split_label_value raw).2)) ∧
      (∀ text, (parse_statement_text text).length
        = ((pySplitlines text).filter isTriggerLine).length) ∧
      (∀ st raw, isTriggerLine raw = true →
        procLine st raw =
          (some { name := (split_label_value raw).2, date := [], amount := [],
                  reference := [], note := [], id := [] }, finalizeState st)) := by
  have hmap : ∀ text, (parse_statement_text text).map Txn.name
      = ((pySplitlines text).filter isTriggerLine).map
          (fun raw => (split_label_value raw).2) := by
    intro text
    have h := foldl_procLine_names (pySplitlines text) (none, [])
    simpa [parse_statement_text, finalizeState] using h
  refine ⟨hmap, fun text => ?_, procLine_trigger⟩
  have h := congrArg List.length (hmap text)
  simpa using h

/-- C2 witness: a two-trigger text yields two records in trigger order,
and a concrete trigger line opens a fresh record after flushing. -/
theorem C2_witness :
    (parse_statement_text (str "Címzett neve  Alice\nKözlemény  x\nMegbízó neve  Bob")).map Txn.name
        = [str "Alice", str "Bob"] ∧
      isTriggerLine (str "Megbízó neve  Bob") = true ∧
      procLine (some (Txn.mk (str "Alice") [] [] (str "x") [] []), [])
          (str "Megbízó neve  Bob")
        = (some (Txn.mk (str "Bob") [] [] [] [] []),
           [Txn.mk (str "Alice") [] [] (str "x") [] []]) := by
  refine ⟨?_, by decide, ?_⟩
  · rw [C2_records_per_trigger.1]
    decide
  · have h := C2_records_per_trigger.2.2
      (some (Txn.mk (str "Alice") [] [] (str "x") [] []), [])
      (str "Megbízó neve  Bob") (by decide)
    rw [h]
    decide

theorem pyStrip_eq_rdropWhile (cs : List Char) :
    pyStrip cs = (cs.dropWhile isPySpace).rdropWhile isPySpace := rfl

theorem dropWhile_eq_self_of_head (cs : List Char)
    (h : cs.head?.all (fun c => !isPySpace c) = true) :
    cs.dropWhile isPySpace = cs := by
  cases cs with
  | nil => rfl
  | cons c t =>
    simp only [List.head?_cons, Option.all_some, Bool.not_eq_true'] at h
    exact List.dropWhile_cons_of_neg (by simp [h])

theorem pyStrip_eq_self (cs : List Char)
    (h1 : cs.head?.all (fun c => !isPySpace c) = true)
    (h2 : cs.getLast?.all (fun c => !isPySpace c) = true) :
    pyStrip cs = cs := by
  rw [pyStrip, dropWhile_eq_self_of_head cs h1]
  rw [show cs.reverse.dropWhile isPySpace = cs.reverse from
    dropWhile_eq_self_of_head _ (by simpa using h2)]
  exact cs.reverse_reverse

theorem pyStrip_head (cs : List Char) :
    (pyStrip cs).head?.all (fun c => !isPySpace c) = true := by
  rw [pyStrip_eq_rdropWhile]
  have hp := List.rdropWhile_prefix isPySpace (cs.dropWhile isPySpace)
  rcases hres : (cs.dropWhile isPySpace).rdropWhile isPySpace with _ | ⟨b, t⟩
  · simp
  · rw [hres] at hp
    obtain ⟨tail, htail⟩ := hp
    have hh := List.head?_dropWhile_not isPySpace cs
    rw [← htail] at hh
    simp only [List.cons_append, List.head?_cons] at hh
    simp [hh]

theorem pyStrip_last (cs : List Char) :
    (pyStrip cs).getLast?.all (fun c => !isPySpace c) = true := by
  rw [pyStrip_eq_rdropWhile]
  by_cases hne : (cs.dropWhile isPySpace).rdropWhile isPySpace = []
  · rw [hne]; simp
  · have h := List.rdropWhile_last_not isPySpace (cs.dropWhile isPySpace) hne
    rw [List.getLast?_eq_getLast _ hne]
    simp only [Option.all_some, Bool.not_eq_true']
    exact Bool.eq_false_iff.mpr h

theorem pyStrip_idem (cs : List Char) : pyStrip (pyStrip cs) = pyStrip cs :=
  pyStrip_eq_self _ (pyStrip_head cs) (pyStrip_last cs)

theorem beforeRun_cons (c : Char) (t : List Char)
    (h : t.head?.all (fun c2 => !(isPySpace c && isPySpace c2)) = true) :
    beforeRun (c :: t) = c :: beforeRun t := by
  cases t with
  | nil => rfl
  | cons c2 t2 =>
    simp only [List.head?_cons, Option.all_some, Bool.not_eq_true',
      Bool.and_eq_false_iff] at h
    rw [beforeRun, if_neg]
    rintro ⟨ha, hb⟩
    rcases h with h | h
    · rw [h] at ha; exact Bool.false_ne_true ha
    · rw [h] at hb; exact Bool.false_ne_true hb

theorem afterRun_cons (c : Char) (t : List Char)
    (h : t.head?.all (fun c2 => !(isPySpace c && isPySpace c2)) = true) :
    afterRun (c :: t) = afterRun t := by
  cases t with
  | nil => rfl
  | cons c2 t2 =>
    simp only [List.head?_cons, Option.all_some, Bool.not_eq_true',
      Bool.and_eq_false_iff] at h
    rw [afterRun, if_neg]
    rintro ⟨ha, hb⟩
    rcases h with h | h
    · rw [h] at ha; exact Bool.false_ne_true ha
    · rw [h] at hb; exact Bool.false_ne_true hb

theorem beforeRun_pair (c c2 : Char) (t : List Char)
    (h1 : isPySpace c = true) (h2 : isPySpace c2 = true) :
    beforeRun (c :: c2 :: t) = [] := by
  rw [beforeRun, if_pos ⟨h1, h2⟩]

theorem afterRun_pair (c c2 : Char) (t : List Char)
    (h1 : isPySpace c = true) (h2 : isPySpace c2 = true) :
    afterRun (c :: c2 :: t) = some ((c2 :: t).dropWhile isPySpace) := by
  rw [afterRun, if_pos ⟨h1, h2⟩]

theorem splitAux_bigpend :
    ∀ (cs acc pend : List Char), 2 ≤ pend.length →
      splitAux cs acc pend = acc.reverse ::
        (match cs.dropWhile isPySpace with
         | [] => [[]]
         | c :: rest => splitAux rest [c] []) := by
  intro cs
  induction cs with
  | nil =>
    intro acc pend hp
    rw [splitAux, if_pos hp]
    rfl
  | cons c rest ih =>
    intro acc pend hp
    rw [splitAux]
    by_cases hws : isPySpace c = true
    · rw [if_pos hws, ih acc (c :: pend) (Nat.le_succ_of_le hp),
        List.dropWhile_cons_of_pos hws]
    · rw [if_neg hws, if_pos hp, List.dropWhile_cons_of_neg hws]

theorem splitAux_decomp :
    ∀ (n : ℕ) (cs : List Char), cs.length ≤ n → ∀ (acc : List Char),
      splitAux cs acc [] = (acc.reverse ++ beforeRun cs) ::
        (Option.elim (afterRun cs) [] (fun r => splitAux r [] [])) := by
  intro n
  induction n with
  | zero =>
    intro cs hlen acc
    rw [List.eq_nil_of_length_eq_zero (Nat.le_zero.mp hlen)]
    simp [splitAux, beforeRun, afterRun]
  | succ n ih =>
    intro cs hlen acc
    match cs with
    | [] => simp [splitAux, beforeRun, afterRun]
    | [c] =>
      rw [splitAux]
      by_cases hws : isPySpace c = true
      · rw [if_pos hws, splitAux]
        simp [beforeRun, afterRun]
      · rw [if_neg hws, if_neg (by simp), splitAux]
        simp [beforeRun, afterRun]
    | c :: c2 :: rest =>
      have hlen2 : (c2 :: rest).length ≤ n := by
        simpa using Nat.succ_le_succ_iff.mp (by simpa using hlen)
      by_cases hc : isPySpace c = true
      · by_cases hc2 : isPySpace c2 = true
        · -- separator run at the front
          rw [splitAux, if_pos hc, splitAux, if_pos hc2,
            splitAux_bigpend rest acc [c2, c] (by simp)]
          rw [beforeRun_pair c c2 rest hc hc2, afterRun_pair c c2 rest hc hc2,
            List.dropWhile_cons_of_pos hc2]
          simp only [Option.elim_some, List.append_nil]
          congr 1
          rcases hdw : rest.dropWhile isPySpace with _ | ⟨d, r3⟩
          · rw [splitAux]; rfl
          · have hd : isPySpace d = false := by
              have hh := List.head?_dropWhile_not isPySpace rest
              rw [hdw] at hh
              simpa using hh
            rw [splitAux, if_neg (by simp [hd]), if_neg (by simp)]
            rfl
        · -- single whitespace then non-whitespace
          rw [splitAux, if_pos hc, splitAux, if_neg (by simp [hc2]),
            if_neg (by simp)]
          simp only [List.cons_append, List.nil_append]
          have := ih rest (Nat.le_of_succ_le hlen2) (c2 :: c :: acc)
          rw [this]
          rw [beforeRun_cons c (c2 :: rest) (by simp [hc2]),
            beforeRun_cons c2 rest ?hhead,
            afterRun_cons c (c2 :: rest) (by simp [hc2]),
            afterRun_cons c2 rest ?hhead]
          · simp
          case hhead =>
            cases rest with
            | nil => simp
            | cons c3 r3 => simp [hc2]
      · -- non-whitespace head
        rw [splitAux, if_neg (by simp [hc])]
        simp only [List.nil_append]
        rw [ih (c2 :: rest) hlen2 (c :: acc)]
        rw [beforeRun_cons c (c2 :: rest) (by simp [hc]),
          afterRun_cons c (c2 :: rest) (by simp [hc])]
        simp

theorem splitWS2_decomp (cs : List Char) :
    splitWS2 cs = beforeRun cs ::
      (Option.elim (afterRun cs) [] (fun r => splitWS2 r)) := by
  have h := splitAux_decomp cs.length cs (Nat.le_refl _) []
  simpa [splitWS2] using h

theorem beforeRun_eq_self_of_afterRun_none :
    ∀ (cs : List Char), afterRun cs = none → beforeRun cs = cs := by
  intro cs
  induction cs with
  | nil => intro _; rfl
  | cons c t ih =>
    intro h
    cases t with
    | nil => rfl
    | cons c2 t2 =>
      by_cases hp : isPySpace c = true ∧ isPySpace c2 = true
      · rw [afterRun, if_pos hp] at h
        cases h
      · have hcond : (c2 :: t2).head?.all
            (fun x => !(isPySpace c && isPySpace x)) = true := by
          simp only [List.head?_cons, Option.all_some, Bool.not_eq_true',
            Bool.and_eq_false_iff]
          by_cases h1 : isPySpace c = true
          · right
            rcases Bool.eq_false_or_eq_true (isPySpace c2) with h2 | h2
            · exact absurd ⟨h1, h2⟩ hp
            · exact h2
          · left; exact Bool.eq_false_iff.mpr h1
        rw [afterRun_cons c (c2 :: t2) hcond] at h
        rw [beforeRun_cons c (c2 :: t2) hcond, ih h]

theorem afterRun_length_lt :
    ∀ (cs r : List Char), afterRun cs = some r → r.length < cs.length := by
  intro cs
  induction cs with
  | nil => intro r h; cases h
  | cons c t ih =>
    intro r h
    cases t with
    | nil => cases h
    | cons c2 t2 =>
      by_cases hp : isPySpace c = true ∧ isPySpace c2 = true
      · rw [afterRun, if_pos hp] at h
        cases h
        calc ((c2 :: t2).dropWhile isPySpace).length
            ≤ (c2 :: t2).length := (List.dropWhile_suffix isPySpace).length_le
          _ < (c :: c2 :: t2).length := by simp
      · rw [afterRun, if_neg hp] at h
        exact Nat.lt_trans (ih r h) (by simp)

theorem segsFromAux_fuel :
    ∀ (f g : ℕ) (cs : List Char), cs.length ≤ f → cs.length ≤ g →
      segsFromAux f cs = segsFromAux g cs := by
  intro f
  induction f with
  | zero =>
    intro g cs hf _
    rw [List.eq_nil_of_length_eq_zero (Nat.le_zero.mp hf)]
    cases g with
    | zero => rfl
    | succ g => rw [segsFromAux, segsFromAux]; rfl
  | succ f ih =>
    intro g cs hf hg
    rw [segsFromAux]
    cases har : afterRun cs with
    | none =>
      cases g with
      | zero =>
        rw [List.eq_nil_of_length_eq_zero (Nat.le_zero.mp hg)]
        rfl
      | succ g => rw [segsFromAux, har]
    | some r =>
      have hr : r.length < cs.length := afterRun_length_lt cs r har
      cases g with
      | zero =>
        rw [List.eq_nil_of_length_eq_zero (Nat.le_zero.mp hg)] at har
        cases har
      | succ g =>
        rw [segsFromAux, har]
        exact congrArg _ (ih g r (Nat.le_of_lt_succ (Nat.lt_of_lt_of_le hr hf))
          (Nat.le_of_lt_succ (Nat.lt_of_lt_of_le hr hg)))

theorem segsFrom_eq (cs : List Char) :
    segsFrom cs = Option.elim (afterRun cs) [cs] (fun r => beforeRun cs :: segsFrom r) := by
  rw [segsFrom]
  cases hn : cs.length with
  | zero =>
    rw [List.eq_nil_of_length_eq_zero hn]
    rfl
  | succ m =>
    rw [segsFromAux]
    cases har : afterRun cs with
    | none => rfl
    | some r =>
      have hr : r.length < cs.length := afterRun_length_lt cs r har
      simp only [Option.elim_some]
      congr 1
      rw [hn] at hr
      exact segsFromAux_fuel m r.length r (Nat.le_of_lt_succ hr) (Nat.le_refl _)

theorem segsFrom_ne_nil (cs : List Char) : segsFrom cs ≠ [] := by
  rw [segsFrom_eq]
  cases afterRun cs <;> simp

theorem splitWS2_eq_segsFrom :
    ∀ (n : ℕ) (cs : List Char), cs.length ≤ n → splitWS2 cs = segsFrom cs := by
  intro n
  induction n with
  | zero =>
    intro cs h
    rw [List.eq_nil_of_length_eq_zero (Nat.le_zero.mp h)]
    rfl
  | succ n ih =>
    intro cs h
    rw [splitWS2_decomp, segsFrom_eq]
    cases har : afterRun cs with
    | none =>
      simp only [Option.elim_none]
      rw [beforeRun_eq_self_of_afterRun_none cs har]
    | some r =>
      have hr : r.length < cs.length := afterRun_length_lt cs r har
      simp only [Option.elim_some]
      congr 1
      exact ih r (Nat.le_of_lt_succ (Nat.lt_of_lt_of_le hr h))

theorem beforeRun_head (cs : List Char)
    (h : cs.head?.all (fun c => !isPySpace c) = true) :
    (beforeRun cs).head?.all (fun c => !isPySpace c) = true := by
  cases cs with
  | nil => rfl
  | cons c t =>
    cases t with
    | nil => simpa [beforeRun] using h
    | cons c2 t2 =>
      by_cases hp : isPySpace c = true ∧ isPySpace c2 = true
      · rw [beforeRun, if_pos hp]; simp
      · rw [beforeRun, if_neg hp]; simpa using h

theorem beforeRun_last :
    ∀ (cs : List Char), cs.getLast?.all (fun c => !isPySpace c) = true →
      (beforeRun cs).getLast?.all (fun c => !isPySpace c) = true := by
  intro cs
  induction cs with
  | nil => intro _; rfl
  | cons c t ih =>
    intro h
    cases t with
    | nil => simpa [beforeRun] using h
    | cons c2 t2 =>
      by_cases hp : isPySpace c = true ∧ isPySpace c2 = true
      · rw [beforeRun, if_pos hp]; simp
      · rw [beforeRun, if_neg hp]
        have hlast : (c2 :: t2).getLast?.all (fun x => !isPySpace x) = true := by
          rw [List.getLast?_cons_cons] at h; exact h
        have ihh := ih hlast
        rcases hbr : beforeRun (c2 :: t2) with _ | ⟨b, bs⟩
        · cases t2 with
          | nil => rw [beforeRun] at hbr; cases hbr
          | cons c3 t3 =>
            by_cases hp2 : isPySpace c2 = true ∧ isPySpace c3 = true
            · have hc : isPySpace c = false := by
                rcases Bool.eq_false_or_eq_true (isPySpace c) with h1 | h1
                · exact absurd ⟨h1, hp2.1⟩ hp
                · exact h1
              simp [hc]
            · rw [beforeRun, if_neg hp2] at hbr; cases hbr
        · rw [hbr] at ihh
          rw [List.getLast?_cons_cons]
          exact ihh

/-- C6 counterexample: on the line `"␣␣a"` (two leading spaces) the code
first strips the line and finds no whitespace run, returning
`("a", "")`, while the claim's raw-line reading splits at the leading run
and returns `("", "a")`. -/
theorem C6_counterexample :
    split_label_value (str "  a") = (str "a", []) ∧
      claimSplit (str "  a") = ([], str "a") ∧
      ¬ ((str "a", ([] : List Char)) = (([] : List Char), str "a")) :=
  ⟨by decide, by decide, by decide⟩

/-- C6 as amended: the splitter is total and behaves exactly as the claim
describes it, with the whitespace runs located in the TRIMMED line (the
line is stripped before splitting). -/
theorem C6_amended (line : List Char) :
    split_label_value line = claimSplit (pyStrip line) := by
  have hsegs := splitWS2_eq_segsFrom (pyStrip line).length (pyStrip line) (Nat.le_refl _)
  cases har : afterRun (pyStrip line) with
  | none =>
    have h1 : splitWS2 (pyStrip line) = [pyStrip line] := by
      rw [hsegs, segsFrom_eq, har]; rfl
    show (if 2 ≤ (splitWS2 (pyStrip line)).length then
        ((splitWS2 (pyStrip line)).headI, pyStrip (joinSp (splitWS2 (pyStrip line)).tail))
      else (pyStrip line, [])) = claimSplit (pyStrip line)
    rw [h1, if_neg (by simp), claimSplit, har]
    show (pyStrip line, ([] : List Char)) = (pyStrip (pyStrip line), [])
    rw [pyStrip_idem]
  | some r =>
    have h1 : splitWS2 (pyStrip line) = beforeRun (pyStrip line) :: segsFrom r := by
      rw [hsegs, segsFrom_eq, har]; rfl
    have hlen : 2 ≤ (beforeRun (pyStrip line) :: segsFrom r).length := by
      rcases hs : segsFrom r with _ | ⟨a, as⟩
      · exact absurd hs (segsFrom_ne_nil r)
      · simp
    show (if 2 ≤ (splitWS2 (pyStrip line)).length then
        ((splitWS2 (pyStrip line)).headI, pyStrip (joinSp (splitWS2 (pyStrip line)).tail))
      else (pyStrip line, [])) = claimSplit (pyStrip line)
    rw [h1, if_pos hlen, claimSplit, har]
    show (beforeRun (pyStrip line), pyStrip (joinSp (segsFrom r)))
        = (pyStrip (beforeRun (pyStrip line)), pyStrip (joinSp (segsFrom r)))
    rw [pyStrip_eq_self (beforeRun (pyStrip line))
      (beforeRun_head _ (pyStrip_head line)) (beforeRun_last _ (pyStrip_last line))]

theorem joinSp_single (x : List Char) : joinSp [x] = x := by
  simp [joinSp, List.intercalate]

theorem isPrefixOf_append_self (xs t : List Char) : xs.isPrefixOf (xs ++ t) = true := by
  rw [List.isPrefixOf_iff_prefix]
  exact List.prefix_append xs t

theorem containsSub_of_prefix (pat cs : List Char)
    (h : pat.isPrefixOf cs = true) : containsSub pat cs = true := by
  rw [containsSub, List.any_eq_true]
  exact ⟨cs, (List.mem_tails cs cs).mpr (List.suffix_refl cs), h⟩

theorem containsSub_eq_false_of_not_mem (pat cs : List Char) (a : Char)
    (hhead : pat.head? = some a) (hmem : a ∉ cs) :
    containsSub pat cs = false := by
  rw [Bool.eq_false_iff]
  intro hcontra
  rw [containsSub, List.any_eq_true] at hcontra
  obtain ⟨t, hmemt, hpre⟩ := hcontra
  rw [List.isPrefixOf_iff_prefix] at hpre
  obtain ⟨s, hs⟩ := hpre
  have hat : a ∈ t := by
    rw [← hs]
    cases pat with
    | nil => cases hhead
    | cons p ps =>
      cases hhead
      exact List.mem_append_left _ (List.mem_cons_self _ _)
  have hsuf : t <:+ cs := (List.mem_tails t cs).mp hmemt
  obtain ⟨u, hu⟩ := hsuf
  exact hmem (hu ▸ List.mem_append_right u hat)

theorem not_mem_gap (a : Char) (xs ys : List Char) (k : ℕ)
    (h1 : a ∉ xs) (h2 : ¬(a = ' ')) (h3 : a ∉ ys) :
    a ∉ xs ++ List.replicate k ' ' ++ ys := by
  simp only [List.mem_append, List.mem_replicate]
  rintro ((h | ⟨-, h⟩) | h)
  · exact h1 h
  · exact h2 h
  · exact h3 h

theorem pyStrip_gapline (xs ys : List Char) (k : ℕ)
    (hxh : xs.head?.all (fun c => !isPySpace c) = true) (hxe : xs ≠ [])
    (hyl : ys.getLast?.all (fun c => !isPySpace c) = true) (hye : ys ≠ []) :
    pyStrip (xs ++ List.replicate k ' ' ++ ys) = xs ++ List.replicate k ' ' ++ ys := by
  apply pyStrip_eq_self
  · cases xs with
    | nil => exact absurd rfl hxe
    | cons x t => simpa using hxh
  · rw [List.getLast?_append, List.getLast?_eq_getLast ys hye]
    rw [List.getLast?_eq_getLast ys hye] at hyl
    simpa using hyl

theorem beforeRun_gap :
    ∀ (xs : List Char) (k : ℕ) (ys : List Char),
      afterRun xs = none → xs.getLast?.all (fun c => !isPySpace c) = true → 2 ≤ k →
      beforeRun (xs ++ List.replicate k ' ' ++ ys) = xs := by
  intro xs
  induction xs with
  | nil =>
    intro k ys _ _ hk
    obtain ⟨m, rfl⟩ : ∃ m, k = 2 + m := ⟨k - 2, by omega⟩
    rw [show (2 + m) = (m + 1) + 1 by omega, List.replicate_succ, List.replicate_succ]
    simp only [List.nil_append, List.cons_append]
    exact beforeRun_pair ' ' ' ' _ (by decide) (by decide)
  | cons x t ih =>
    intro k ys ha hl hk
    have hcondAll : ∀ (z : List Char), t = z →
        ((z ++ List.replicate k ' ' ++ ys).head?.all
          (fun c2 => !(isPySpace x && isPySpace c2)) = true) := by
      intro z hz
      subst hz
      cases t with
      | nil =>
        obtain ⟨m, rfl⟩ : ∃ m, k = m + 1 := ⟨k - 1, by omega⟩
        rw [List.replicate_succ]
        have hx : isPySpace x = false := by simpa using hl
        simp [hx]
      | cons t1 t' =>
        simp only [List.cons_append, List.head?_cons, Option.all_some]
        rcases Bool.eq_false_or_eq_true (isPySpace x) with hx | hx
        · rcases Bool.eq_false_or_eq_true (isPySpace t1) with ht | ht
          · exact absurd ha (by rw [afterRun_pair x t1 t' hx ht]; simp)
          · simp [ht]
        · simp [hx]
    have hcond := hcondAll t rfl
    have hcondT : t.head?.all (fun c2 => !(isPySpace x && isPySpace c2)) = true := by
      cases t with
      | nil => rfl
      | cons t1 t' => simpa using hcond
    simp only [List.cons_append]
    rw [beforeRun_cons x _ hcond]
    congr 1
    apply ih k ys
    · rw [afterRun_cons x t hcondT] at ha
      exact ha
    · cases t with
      | nil => rfl
      | cons t1 t' => rw [List.getLast?_cons_cons] at hl; exact hl
    · exact hk

theorem afterRun_gap :
    ∀ (xs : List Char) (k : ℕ) (ys : List Char),
      afterRun xs = none → xs.getLast?.all (fun c => !isPySpace c) = true → 2 ≤ k →
      ys.head?.all (fun c => !isPySpace c) = true →
      afterRun (xs ++ List.replicate k ' ' ++ ys) = some ys := by
  intro xs
  induction xs with
  | nil =>
    intro k ys _ _ hk hyh
    obtain ⟨m, rfl⟩ : ∃ m, k = 2 + m := ⟨k - 2, by omega⟩
    rw [show (2 + m) = (m + 1) + 1 by omega, List.replicate_succ, List.replicate_succ]
    simp only [List.nil_append, List.cons_append]
    rw [afterRun_pair ' ' ' ' _ (by decide) (by decide)]
    congr 1
    rw [List.dropWhile_cons_of_pos (by decide)]
    rw [List.dropWhile_append_of_pos (by intro a ha; rw [List.eq_of_mem_replicate ha]; decide)]
    exact dropWhile_eq_self_of_head ys hyh
  | cons x t ih =>
    intro k ys ha hl hk hyh
    have hcondAll : ∀ (z : List Char), t = z →
        ((z ++ List.replicate k ' ' ++ ys).head?.all
          (fun c2 => !(isPySpace x && isPySpace c2)) = true) := by
      intro z hz
      subst hz
      cases t with
      | nil =>
        obtain ⟨m, rfl⟩ : ∃ m, k = m + 1 := ⟨k - 1, by omega⟩
        rw [List.replicate_succ]
        have hx : isPySpace x = false := by simpa using hl
        simp [hx]
      | cons t1 t' =>
        simp only [List.cons_append, List.head?_cons, Option.all_some]
        rcases Bool.eq_false_or_eq_true (isPySpace x) with hx | hx
        · rcases Bool.eq_false_or_eq_true (isPySpace t1) with ht | ht
          · exact absurd ha (by rw [afterRun_pair x t1 t' hx ht]; simp)
          · simp [ht]
        · simp [hx]
    have hcond := hcondAll t rfl
    have hcondT : t.head?.all (fun c2 => !(isPySpace x && isPySpace c2)) = true := by
      cases t with
      | nil => rfl
      | cons t1 t' => simpa using hcond
    simp only [List.cons_append]
    rw [afterRun_cons x _ hcond]
    apply ih k ys
    · rw [afterRun_cons x t hcondT] at ha
      exact ha
    · cases t with
      | nil => rfl
      | cons t1 t' => rw [List.getLast?_cons_cons] at hl; exact hl
    · exact hk
    · exact hyh

theorem split_label_value_gap (xs ys : List Char) (k : ℕ)
    (hxa : afterRun xs = none)
    (hxh : xs.head?.all (fun c => !isPySpace c) = true)
    (hxl : xs.getLast?.all (fun c => !isPySpace c) = true) (hxe : xs ≠ [])
    (hya : afterRun ys = none)
    (hyh : ys.head?.all (fun c => !isPySpace c) = true)
    (hyl : ys.getLast?.all (fun c => !isPySpace c) = true) (hye : ys ≠ [])
    (hk : 2 ≤ k) :
    split_label_value (xs ++ List.replicate k ' ' ++ ys) = (xs, ys) := by
  have hstrip := pyStrip_gapline xs ys k hxh hxe hyl hye
  have har := afterRun_gap xs k ys hxa hxl hk hyh
  have hbr := beforeRun_gap xs k ys hxa hxl hk
  have hws2 : splitWS2 (pyStrip (xs ++ List.replicate k ' ' ++ ys)) = [xs, ys] := by
    rw [hstrip,
      splitWS2_eq_segsFrom (xs ++ List.replicate k ' ' ++ ys).length _ (Nat.le_refl _),
      segsFrom_eq, har]
    simp only [Option.elim_some]
    rw [hbr, segsFrom_eq, hya]
    rfl
  show (if 2 ≤ (splitWS2 (pyStrip (xs ++ List.replicate k ' ' ++ ys))).length then
      ((splitWS2 (pyStrip (xs ++ List.replicate k ' ' ++ ys))).headI,
        pyStrip (joinSp (splitWS2 (pyStrip (xs ++ List.replicate k ' ' ++ ys))).tail))
    else (pyStrip (xs ++ List.replicate k ' ' ++ ys), [])) = (xs, ys)
  rw [hws2, if_pos (by simp)]
  show (xs, pyStrip (joinSp [ys])) = (xs, ys)
  rw [joinSp_single, pyStrip_eq_self ys hyh hyl]

theorem pySplitlines_append (xs rest : List Char)
    (h : xs.all (fun c => !isLineBreak c) = true) :
    pySplitlines (xs ++ '\n' :: rest) = xs :: pySplitlines rest := by
  induction xs with
  | nil =>
    cases rest with
    | nil => rfl
    | cons r rs =>
      show pySplitlines ('\n' :: r :: rs) = [] :: pySplitlines (r :: rs)
      rw [pySplitlines, if_pos (by decide),
        if_neg (fun hcontra => absurd hcontra.1 (by decide))]
  | cons x t ih =>
    simp only [List.all_cons, Bool.and_eq_true, Bool.not_eq_true'] at h
    have iht := ih h.2
    cases t with
    | nil =>
      show pySplitlines (x :: '\n' :: rest) = [x] :: pySplitlines rest
      rw [pySplitlines, if_neg (by simp [h.1])]
      rw [show pySplitlines ('\n' :: rest) = [] :: pySplitlines rest from iht]
    | cons y ts =>
      show pySplitlines (x :: y :: (ts ++ '\n' :: rest)) = (x :: y :: ts) :: pySplitlines rest
      rw [pySplitlines, if_neg (by simp [h.1])]
      rw [show pySplitlines (y :: (ts ++ '\n' :: rest)) = (y :: ts) :: pySplitlines rest from iht]

theorem pySplitlines_noLB (xs : List Char)
    (h : xs.all (fun c => !isLineBreak c) = true) (hne : xs ≠ []) :
    pySplitlines xs = [xs] := by
  induction xs with
  | nil => exact absurd rfl hne
  | cons x t ih =>
    simp only [List.all_cons, Bool.and_eq_true, Bool.not_eq_true'] at h
    cases t with
    | nil =>
      show (if isLineBreak x then [[]] else [[x]]) = [[x]]
      rw [if_neg (by simp [h.1])]
    | cons y ts =>
      rw [pySplitlines, if_neg (by simp [h.1])]
      rw [show pySplitlines (y :: ts) = [y :: ts] from
        ih (by simpa using h.2) (List.cons_ne_nil _ _)]

theorem all_noLB_gap (xs ys : List Char) (k : ℕ)
    (h1 : xs.all (fun c => !isLineBreak c) = true)
    (h2 : ys.all (fun c => !isLineBreak c) = true) :
    (xs ++ List.replicate k ' ' ++ ys).all (fun c => !isLineBreak c) = true := by
  simp only [List.all_append, Bool.and_eq_true]
  refine ⟨⟨h1, ?_⟩, h2⟩
  cases k with
  | zero => simp
  | succ n =>
    rw [List.all_replicate, if_neg (Nat.succ_ne_zero n)]
    decide

theorem procLine_date (cur : Txn) (txs : List Txn) (raw : List Char)
    (h0 : isTriggerLine raw = false) (h1 : isAmountLine raw = false)
    (h2 : (str "Értéknap").isPrefixOf (pyStrip raw) = true) :
    procLine (some cur, txs) raw =
      (some { cur with date := dateField (split_label_value raw).2 }, txs) := by
  have hne : pyStrip raw ≠ [] := by
    intro hnil
    rw [hnil] at h2
    exact absurd h2 (by decide)
  rw [isTriggerLine, Bool.or_eq_false_iff] at h0
  rw [isAmountLine, Bool.or_eq_false_iff] at h1
  simp [procLine, hne, h0.1, h0.2, h1.1, h1.2, h2]

theorem procLine_reference (cur : Txn) (txs : List Txn) (raw : List Char)
    (h0 : isTriggerLine raw = false) (h1 : isAmountLine raw = false)
    (h2 : (str "Értéknap").isPrefixOf (pyStrip raw) = false)
    (h3 : (str "Közlemény").isPrefixOf (pyStrip raw) = true) :
    procLine (some cur, txs) raw =
      (some { cur with reference := (split_label_value raw).2 }, txs) := by
  have hne : pyStrip raw ≠ [] := by
    intro hnil
    rw [hnil] at h3
    exact absurd h3 (by decide)
  rw [isTriggerLine, Bool.or_eq_false_iff] at h0
  rw [isAmountLine, Bool.or_eq_false_iff] at h1
  simp [procLine, hne, h0.1, h0.2, h1.1, h1.2, h2, h3]

theorem isPrefixOf_false_of_head_ne (pat xs ys : List Char)
    (hpat : pat ≠ []) (hxs : xs ≠ []) (hne : ¬(pat.head? = xs.head?)) :
    pat.isPrefixOf (xs ++ ys) = false := by
  match pat, xs with
  | a :: as, b :: bs =>
    have hab : ¬(a = b) := fun h => hne (by rw [List.head?_cons, List.head?_cons, h])
    show ((a == b) && as.isPrefixOf (bs ++ ys)) = false
    simp [hab]

theorem gap_ne_nil (xs ys : List Char) (k : ℕ) (h : ys ≠ []) :
    xs ++ List.replicate k ' ' ++ ys ≠ [] := by
  intro hc
  rw [List.append_eq_nil] at hc
  exact h hc.2

/-- C1: for the four-line block (labels separated from values by runs of
two or more spaces) the pipeline emits exactly one row with the normalized
date, the normalized amount, type `Income`, and the composed
description. -/
theorem C1_end_to_end (k1 k2 k3 k4 : ℕ)
    (hk1 : 2 ≤ k1) (hk2 : 2 ≤ k2) (hk3 : 2 ≤ k3) (hk4 : 2 ≤ k4) :
    convert_rows (c1Text k1 k2 k3 k4) =
      [{ date := str "2024-03-01", amount := str "10000.00",
         rowType := str "Income", description := str "ACME Ltd - Invoice 42" }] := by
  -- the four lines
  have hall1 : (c1Line "Címzett neve" k1 "ACME Ltd").all (fun c => !isLineBreak c) = true :=
    all_noLB_gap (str "Címzett neve") (str "ACME Ltd") k1 (by decide) (by decide)
  have hall2 : (c1Line "Értéknap" k2 "2024.03.01.").all (fun c => !isLineBreak c) = true :=
    all_noLB_gap (str "Értéknap") (str "2024.03.01.") k2 (by decide) (by decide)
  have hall3 : (c1Line "Jóváírás összege" k3 "10 000 HUF").all (fun c => !isLineBreak c) = true :=
    all_noLB_gap (str "Jóváírás összege") (str "10 000 HUF") k3 (by decide) (by decide)
  have hall4 : (c1Line "Közlemény" k4 "Invoice 42").all (fun c => !isLineBreak c) = true :=
    all_noLB_gap (str "Közlemény") (str "Invoice 42") k4 (by decide) (by decide)
  have hne4 : c1Line "Közlemény" k4 "Invoice 42" ≠ [] :=
    gap_ne_nil (str "Közlemény") (str "Invoice 42") k4 (by decide)
  have hlines : pySplitlines (c1Text k1 k2 k3 k4) =
      [c1Line "Címzett neve" k1 "ACME Ltd", c1Line "Értéknap" k2 "2024.03.01.",
       c1Line "Jóváírás összege" k3 "10 000 HUF", c1Line "Közlemény" k4 "Invoice 42"] := by
    rw [c1Text, pySplitlines_append _ _ hall1, pySplitlines_append _ _ hall2,
      pySplitlines_append _ _ hall3, pySplitlines_noLB _ hall4 hne4]
  -- strips
  have hstrip1 : pyStrip (c1Line "Címzett neve" k1 "ACME Ltd") = c1Line "Címzett neve" k1 "ACME Ltd" :=
    pyStrip_gapline (str "Címzett neve") (str "ACME Ltd") k1 (by decide) (by decide) (by decide) (by decide)
  have hstrip2 : pyStrip (c1Line "Értéknap" k2 "2024.03.01.") = c1Line "Értéknap" k2 "2024.03.01." :=
    pyStrip_gapline (str "Értéknap") (str "2024.03.01.") k2 (by decide) (by decide) (by decide) (by decide)
  have hstrip3 : pyStrip (c1Line "Jóváírás összege" k3 "10 000 HUF") = c1Line "Jóváírás összege" k3 "10 000 HUF" :=
    pyStrip_gapline (str "Jóváírás összege") (str "10 000 HUF") k3 (by decide) (by decide) (by decide) (by decide)
  have hstrip4 : pyStrip (c1Line "Közlemény" k4 "Invoice 42") = c1Line "Közlemény" k4 "Invoice 42" :=
    pyStrip_gapline (str "Közlemény") (str "Invoice 42") k4 (by decide) (by decide) (by decide) (by decide)
  -- splits
  have hsp1 : split_label_value (c1Line "Címzett neve" k1 "ACME Ltd") = (str "Címzett neve", str "ACME Ltd") :=
    split_label_value_gap (str "Címzett neve") (str "ACME Ltd") k1 (by decide) (by decide)
      (by decide) (by decide) (by decide) (by decide) (by decide) (by decide) hk1
  have hsp2 : split_label_value (c1Line "Értéknap" k2 "2024.03.01.") = (str "Értéknap", str "2024.03.01.") :=
    split_label_value_gap (str "Értéknap") (str "2024.03.01.") k2 (by decide) (by decide)
      (by decide) (by decide) (by decide) (by decide) (by decide) (by decide) hk2
  have hsp3 : split_label_value (c1Line "Jóváírás összege" k3 "10 000 HUF") = (str "Jóváírás összege", str "10 000 HUF") :=
    split_label_value_gap (str "Jóváírás összege") (str "10 000 HUF") k3 (by decide) (by decide)
      (by decide) (by decide) (by decide) (by decide) (by decide) (by decide) hk3
  have hsp4 : split_label_value (c1Line "Közlemény" k4 "Invoice 42") = (str "Közlemény", str "Invoice 42") :=
    split_label_value_gap (str "Közlemény") (str "Invoice 42") k4 (by decide) (by decide)
      (by decide) (by decide) (by decide) (by decide) (by decide) (by decide) hk4
  -- line 1: trigger
  have htrig1 : isTriggerLine (c1Line "Címzett neve" k1 "ACME Ltd") = true := by
    rw [isTriggerLine, hstrip1, c1Line, List.append_assoc, isPrefixOf_append_self]
    try rfl
  have step1 : procLine (none, []) (c1Line "Címzett neve" k1 "ACME Ltd")
      = (some (Txn.mk (str "ACME Ltd") [] [] [] [] []), []) := by
    rw [procLine_trigger _ _ htrig1, hsp1]
    try rfl
  -- line 2: date
  have htrig2 : isTriggerLine (c1Line "Értéknap" k2 "2024.03.01.") = false := by
    rw [isTriggerLine, hstrip2, c1Line, List.append_assoc,
      isPrefixOf_false_of_head_ne _ _ _ (by decide) (by decide) (by decide),
      isPrefixOf_false_of_head_ne _ _ _ (by decide) (by decide) (by decide)]
    try rfl
  have hamt2 : isAmountLine (c1Line "Értéknap" k2 "2024.03.01.") = false := by
    rw [isAmountLine, hstrip2, c1Line,
      containsSub_eq_false_of_not_mem _ _ 'J' (by decide)
        (not_mem_gap 'J' (str "Értéknap") (str "2024.03.01.") k2 (by decide) (by decide) (by decide)),
      containsSub_eq_false_of_not_mem _ _ 'T' (by decide)
        (not_mem_gap 'T' (str "Értéknap") (str "2024.03.01.") k2 (by decide) (by decide) (by decide))]
    try rfl
  have hdate2 : (str "Értéknap").isPrefixOf (pyStrip (c1Line "Értéknap" k2 "2024.03.01.")) = true := by
    rw [hstrip2, c1Line, List.append_assoc]
    exact isPrefixOf_append_self _ _
  have step2 : procLine (some (Txn.mk (str "ACME Ltd") [] [] [] [] []), [])
      (c1Line "Értéknap" k2 "2024.03.01.")
      = (some (Txn.mk (str "ACME Ltd") (str "2024-03-01") [] [] [] []), []) := by
    rw [procLine_date _ _ _ htrig2 hamt2 hdate2, hsp2]
    decide
  -- line 3: amount
  have htrig3 : isTriggerLine (c1Line "Jóváírás összege" k3 "10 000 HUF") = false := by
    rw [isTriggerLine, hstrip3, c1Line, List.append_assoc,
      isPrefixOf_false_of_head_ne _ _ _ (by decide) (by decide) (by decide),
      isPrefixOf_false_of_head_ne _ _ _ (by decide) (by decide) (by decide)]
    try rfl
  have hamt3 : isAmountLine (c1Line "Jóváírás összege" k3 "10 000 HUF") = true := by
    have hpre : (str "Jóváírás összege").isPrefixOf
        (c1Line "Jóváírás összege" k3 "10 000 HUF") = true := by
      rw [c1Line, List.append_assoc]
      exact isPrefixOf_append_self _ _
    rw [isAmountLine, hstrip3, containsSub_of_prefix _ _ hpre]
    try rfl
  have step3 : procLine (some (Txn.mk (str "ACME Ltd") (str "2024-03-01") [] [] [] []), [])
      (c1Line "Jóváírás összege" k3 "10 000 HUF")
      = (some (Txn.mk (str "ACME Ltd") (str "2024-03-01") (str "10000.00") [] [] []), []) := by
    rw [procLine_amount _ _ _ htrig3 hamt3, hsp3]
    decide
  -- line 4: reference
  have htrig4 : isTriggerLine (c1Line "Közlemény" k4 "Invoice 42") = false := by
    rw [isTriggerLine, hstrip4, c1Line, List.append_assoc,
      isPrefixOf_false_of_head_ne _ _ _ (by decide) (by decide) (by decide),
      isPrefixOf_false_of_head_ne _ _ _ (by decide) (by decide) (by decide)]
    try rfl
  have hamt4 : isAmountLine (c1Line "Közlemény" k4 "Invoice 42") = false := by
    rw [isAmountLine, hstrip4, c1Line,
      containsSub_eq_false_of_not_mem _ _ 'J' (by decide)
        (not_mem_gap 'J' (str "Közlemény") (str "Invoice 42") k4 (by decide) (by decide) (by decide)),
      containsSub_eq_false_of_not_mem _ _ 'T' (by decide)
        (not_mem_gap 'T' (str "Közlemény") (str "Invoice 42") k4 (by decide) (by decide) (by decide))]
    try rfl
  have hdate4 : (str "Értéknap").isPrefixOf (pyStrip (c1Line "Közlemény" k4 "Invoice 42")) = false := by
    rw [hstrip4, c1Line, List.append_assoc]
    exact isPrefixOf_false_of_head_ne _ _ _ (by decide) (by decide) (by decide)
  have href4 : (str "Közlemény").isPrefixOf (pyStrip (c1Line "Közlemény" k4 "Invoice 42")) = true := by
    rw [hstrip4, c1Line, List.append_assoc]
    exact isPrefixOf_append_self _ _
  have step4 : procLine (some (Txn.mk (str "ACME Ltd") (str "2024-03-01") (str "10000.00") [] [] []), [])
      (c1Line "Közlemény" k4 "Invoice 42")
      = (some (Txn.mk (str "ACME Ltd") (str "2024-03-01") (str "10000.00") (str "Invoice 42") [] []), []) := by
    rw [procLine_reference _ _ _ htrig4 hamt4 hdate4 href4, hsp4]
  -- assemble
  rw [convert_rows, parse_statement_text, hlines]
  rw [List.foldl_cons, step1, List.foldl_cons, step2, List.foldl_cons, step3,
    List.foldl_cons, step4, List.foldl_nil]
  decide

/-- C1 witness: the block with two-space separations. -/
theorem C1_witness :
    2 ≤ 2 ∧ convert_rows (c1Text 2 2 2 2) =
      [{ date := str "2024-03-01", amount := str "10000.00",
         rowType := str "Income", description := str "ACME Ltd - Invoice 42" }] :=
  ⟨by decide, C1_end_to_end 2 2 2 2 (by decide) (by decide) (by decide) (by decide)⟩
